import Mathlib

/-!
# Verification of the Xanthos documentation-generation pipeline

A shallow embedding of the two generator scripts
(`scripts/generate_error_catalog.py` and `scripts/generate_api_docs.py`)
together with theorems settling the behavioural claims about them.

Conventions of the embedding:
* Python strings are Lean `String`s; Python `None`-able values are `Option`;
  a raised exception (`SystemExit`, `RuntimeError`) is an `Except.error`.
* Python string operations (`strip`, `replace`, `split`, `upper`, `lower`,
  `startswith`, `endswith`, ordering) are modelled by the structural
  char-list functions defined below, so that every definition evaluates
  inside the kernel; the texts involved are ASCII/CJK, on which these agree
  with Python.
* The regular expression `\d` is modelled as an ASCII digit; the inputs the
  pipeline feeds these functions contain only ASCII digits.
* Python `dict`s are insertion-ordered association lists, Python `set`s are
  duplicate-free lists (iteration order of a `set` is unspecified in Python;
  where the scripts iterate over a set we fix first-insertion order, and no
  theorem below depends on that choice).
* Index-mutating `while` loops are rendered as folds / structural recursions
  over the remaining input, state passed explicitly.
-/

/-! ## Generic character/string helpers -/

/-- `charsPref p s` is true iff the character list `p` is an initial segment
of `s` (helper for the Python substring operator `in`). -/
def charsPref : List Char → List Char → Bool
  | [], _ => true
  | _ :: _, [] => false
  | p :: ps, c :: cs => p = c && charsPref ps cs

/-- `charsSub pat s`: does `pat` occur contiguously inside `s`?  Models the
Python substring test `pat in s`. -/
def charsSub (pat : List Char) : List Char → Bool
  | [] => pat.isEmpty
  | c :: rest => charsPref pat (c :: rest) || charsSub pat rest

/-- Python's `pat in s` on strings. -/
def strContains (s pat : String) : Bool :=
  charsSub pat.data s.data

/-- `str.startswith` (the core `String.startsWith` is byte-position based and
does not reduce in the kernel, so the embedding works on `.data`). -/
def strStartsWith (s pat : String) : Bool :=
  charsPref pat.data s.data

/-- `str.endswith`. -/
def strEndsWith (s pat : String) : Bool :=
  charsPref pat.data.reverse s.data.reverse

/-- `str.strip()`: drop leading and trailing whitespace. -/
def strTrim (s : String) : String :=
  String.mk (((s.data.dropWhile Char.isWhitespace).reverse.dropWhile Char.isWhitespace).reverse)

/-- Worker for `str.replace`: replace every non-overlapping occurrence of
`pat`, scanning left to right; `skip` counts characters of a recognised
occurrence still to consume. -/
def replaceSub (pat rep : List Char) : Nat → List Char → List Char
  | _ + 1, [] => []
  | k + 1, _ :: rest => replaceSub pat rep k rest
  | 0, [] => []
  | 0, c :: rest =>
    if pat.isEmpty then c :: replaceSub pat rep 0 rest
    else if charsPref pat (c :: rest) then rep ++ replaceSub pat rep (pat.length - 1) rest
    else c :: replaceSub pat rep 0 rest

/-- `str.replace(pat, rep)`. -/
def strReplace (s pat rep : String) : String :=
  String.mk (replaceSub pat.data rep.data 0 s.data)

/-- Worker for `str.split(sep)` (non-empty separator): split at every
non-overlapping occurrence, left to right. -/
def splitOnAux (sep : List Char) (acc : List Char) : Nat → List Char → List String
  | _ + 1, [] => [String.mk acc.reverse]
  | k + 1, _ :: rest => splitOnAux sep acc k rest
  | 0, [] => [String.mk acc.reverse]
  | 0, c :: rest =>
    if ¬ sep.isEmpty ∧ charsPref sep (c :: rest) then
      String.mk acc.reverse :: splitOnAux sep [] (sep.length - 1) rest
    else splitOnAux sep (c :: acc) 0 rest

/-- `str.split(sep)` for a non-empty separator. -/
def strSplitOn (s sep : String) : List String :=
  splitOnAux sep.data [] 0 s.data

/-- `str.upper()` (ASCII; the texts mapped are ASCII/CJK, and CJK characters
are fixed points of both Python's and Lean's case maps). -/
def strToUpper (s : String) : String :=
  String.mk (s.data.map Char.toUpper)

/-- `str.lower()` (ASCII, as for `strToUpper`). -/
def strToLower (s : String) : String :=
  String.mk (s.data.map Char.toLower)

/-- Lexicographic code-point comparison, Python's `<=` on strings. -/
def charListLe : List Char → List Char → Bool
  | [], _ => true
  | _ :: _, [] => false
  | a :: as, b :: bs =>
    if a.toNat < b.toNat then true
    else if b.toNat < a.toNat then false
    else charListLe as bs

/-- Python's `<=` on strings. -/
def strLeB (a b : String) : Bool :=
  charListLe a.data b.data

/-- Insertion of `x` into `l` before the first element not below it. -/
def insertLe {α : Type} (le : α → α → Bool) (x : α) : List α → List α
  | [] => [x]
  | y :: ys => if le x y then x :: y :: ys else y :: insertLe le x ys

/-- Stable insertion sort: our rendering of Python's `sorted`. -/
def sortByLe {α : Type} (le : α → α → Bool) : List α → List α
  | [] => []
  | x :: xs => insertLe le x (sortByLe le xs)

/-! ## `generate_error_catalog.py`: fixed lookup tables -/

/-- `CATEGORY_KEYWORDS` from `generate_error_catalog.py`: ordered list of
(category, keyword list) pairs; first category with a matching keyword wins. -/
def CATEGORY_KEYWORDS : List (String × List String) :=
  [ ("input", ["パラメータ", "入力", "spec", "option", "key", "fromtime", "filepath", "dataspec", "parameter"]),
    ("authentication", ["認証", "利用キー", "同意", "有効期限", "license", "authentication"]),
    ("maintenance", ["メンテナンス", "maintenance"]),
    ("download", ["ダウンロード", "通信", "サーバー", "download", "server"]),
    ("internal", ["内部エラー", "internal", "レジストリ"]),
    ("state", ["行なわれていない", "呼ばれていない", "オープン中", "closed", "open", "state"]) ]

/-- `CODE_MESSAGES` from `generate_error_catalog.py`: the canonical English
message per error code, in source order. -/
def CODE_MESSAGES : List (Int × String) :=
  [ (-504, "Service is currently under maintenance."),
    (-503, "Required file or temporary file was deleted before JVLink could process it."),
    (-502, "Download failed because of a communication or disk error."),
    (-501, "Setup media (CD/DVD) is invalid or missing."),
    (-431, "Server reported an internal error."),
    (-421, "Server returned a malformed response."),
    (-413, "Server returned HTTP 403/other restricted status."),
    (-412, "Server returned HTTP 403 Forbidden."),
    (-411, "Server returned HTTP 404 or registry contents are invalid."),
    (-403, "Downloaded data is corrupted."),
    (-402, "Downloaded file has an invalid size."),
    (-401, "JV-Link reported an internal error."),
    (-305, "User agreement has not been accepted."),
    (-304, "Movie license state is invalid."),
    (-303, "Service key is not configured."),
    (-302, "Service key has expired."),
    (-301, "Authentication failure (invalid or duplicated service key)."),
    (-211, "Registry values are invalid or JVInit has not been executed."),
    (-203, "JVOpen was not executed before the current call."),
    (-202, "Previous JVOpen/JVRTOpen/JVMVOpen session is still open."),
    (-201, "JVInit was not executed before the current call."),
    (-118, "File path parameter is invalid or the directory does not exist."),
    (-116, "Option and dataspec combination is invalid."),
    (-115, "Option parameter is invalid."),
    (-114, "Key parameter is invalid."),
    (-113, "Fromtime (end) parameter is invalid."),
    (-112, "Fromtime (start) parameter is invalid."),
    (-111, "Dataspec parameter is invalid."),
    (-103, "SID begins with a space."),
    (-102, "SID exceeds 64 bytes."),
    (-101, "SID is missing."),
    (-100, "UI configuration was cancelled or could not be persisted."),
    (-3, "Target files are still downloading."),
    (-2, "Setup dialog was cancelled by the user."),
    (-1, "No matching data exists for the current parameters."),
    (0, "Operation completed successfully."),
    (1, "Victory silks image was created successfully.") ]

/-- `METHOD_MESSAGE_OVERRIDES` from `generate_error_catalog.py`: per-code,
per-method explicit message overrides. -/
def METHOD_MESSAGE_OVERRIDES : List (Int × List (String × String)) :=
  [ (-503, [("JVCLOSE", "Target file was already removed; closure can continue.")]),
    (-411,
      [ ("JVFUKU", "Server returned HTTP 404/Not Found for the requested resource."),
        ("JVMVPLAY", "Server returned HTTP 404/Not Found for the requested movie."),
        ("JVMVPLAYWITHTYPE", "Server returned HTTP 404/Not Found for the requested movie.") ]),
    (-201,
      [ ("JVCLOSE", "JVInit must be executed before JVClose."),
        ("JVCOURSEFILE", "JVInit must be executed before requesting course data."),
        ("JVCOURSEFILE2", "JVInit must be executed before requesting course data."),
        ("JVFUKU", "JVInit must be executed before requesting silks data."),
        ("JVMVCHECK", "JVInit must be executed before calling movie APIs."),
        ("JVMVCHECKWITHTYPE", "JVInit must be executed before calling movie APIs."),
        ("JVMVOPEN", "JVInit must be executed before opening movie lists."),
        ("JVMVPLAY", "JVInit must be executed before playing movies."),
        ("JVMVPLAYWITHTYPE", "JVInit must be executed before playing movies."),
        ("JVMVREAD", "JVInit must be executed before reading movie lists."),
        ("JVOPEN", "JVInit must be executed before JVOpen."),
        ("JVSETUIPROPERTIES", "JVInit must be executed before configuring UI settings.") ]),
    (-1,
      [ ("JVCLOSE", "File boundary reached; continue with the next file."),
        ("JVOPEN", "File boundary reached; continue reading."),
        ("JVREAD", "File boundary reached; continue reading."),
        ("JVGETS", "File boundary reached; continue reading.") ]),
    (0,
      [ ("JVSETUIPROPERTIES", "Settings saved successfully."),
        ("JVOPEN", "All files processed successfully.") ]) ]

/-! ## `generate_error_catalog.py`: normalisation functions -/

/-- `infer_category` from `generate_error_catalog.py`: lowercase the text and
return the first category one of whose keywords occurs in it, else `"other"`. -/
def infer_category (text : String) : String :=
  let lower := strToLower text
  match CATEGORY_KEYWORDS.find? (fun ck => ck.2.any (fun kw => strContains lower (strToLower kw))) with
  | some ck => ck.1
  | none => "other"

/-- Length of the separator matched at the current position by the regex
`[,/]\s*|\s+and\s+|、|，` used in `normalize_methods` (re.split tries the
alternatives left to right at each position; `\s+and\s+` requires the literal
`and` to follow the whole whitespace run, with at least one more whitespace
character after it). `none` when no alternative matches here. -/
def sepLen (s : List Char) : Option Nat :=
  match s with
  | [] => none
  | c :: rest =>
    if c = ',' ∨ c = '/' then
      some (1 + (rest.takeWhile Char.isWhitespace).length)
    else if c.isWhitespace then
      let run := (c :: rest).takeWhile Char.isWhitespace
      let after := (c :: rest).dropWhile Char.isWhitespace
      match after with
      | 'a' :: 'n' :: 'd' :: tail =>
        let run2 := tail.takeWhile Char.isWhitespace
        if run2.length = 0 then none else some (run.length + 3 + run2.length)
      | _ => none
    else if c = '、' ∨ c = '，' then some 1
    else none

/-- Worker for `normalize_methods`'s `re.split`: `skip` counts characters of an
already-recognised separator still to consume; `acc` holds the current part in
reverse. -/
def splitSepsAux (acc : List Char) : Nat → List Char → List String
  | _ + 1, [] => [String.mk acc.reverse]
  | k + 1, _ :: rest => splitSepsAux acc k rest
  | 0, [] => [String.mk acc.reverse]
  | 0, c :: rest =>
    match sepLen (c :: rest) with
    | some n => String.mk acc.reverse :: splitSepsAux [] (n - 1) rest
    | none => splitSepsAux (c :: acc) 0 rest

/-- `normalize_methods` from `generate_error_catalog.py`: split the raw method
cell on comma/slash (with trailing whitespace), ` and `, or the Japanese list
separators, strip the parts, drop empties, defaulting to `["(Unknown)"]`. -/
def normalize_methods (raw : String) : List String :=
  let parts := splitSepsAux [] 0 raw.data
  let cleaned := (parts.map strTrim).filter (fun p => p ≠ "")
  if cleaned.isEmpty then ["(Unknown)"] else cleaned

/-- Value of a non-empty ASCII digit list. -/
def digitsToNat (ds : List Char) : Nat :=
  ds.foldl (fun acc c => acc * 10 + (c.toNat - '0'.toNat)) 0

/-- First match of the regex `-?\d+` in a character list (Python `re.search`):
scan left to right; at a `'-'` directly followed by digits take the negated
digit run, at a digit take the digit run, else move on. -/
def findSignedInt : List Char → Option Int
  | [] => none
  | c :: rest =>
    if c = '-' then
      let ds := rest.takeWhile Char.isDigit
      if ds.isEmpty then findSignedInt rest
      else some (-(digitsToNat ds : Int))
    else if c.isDigit then
      some ((digitsToNat (c :: rest.takeWhile Char.isDigit) : Nat) : Int)
    else findSignedInt rest

/-- `normalize_code` from `generate_error_catalog.py`: replace the variant
minus glyphs U+2015 (`―`) and U+2212 (`−`) by ASCII `-`, then extract the
first `-?\d+` match, if any.  (U+FF0D `－` is not replaced.) -/
def normalize_code (raw : String) : Option Int :=
  let text := strReplace (strReplace raw "―" "-") "−" "-"
  findSignedInt text.data

/-! ### `normalize_text` and its regex passes

`normalize_text` applies, in order: removal of the placeholder `同上`,
three whitespace-deletion passes (between CJK/CJK, CJK/alphanumeric,
alphanumeric/CJK characters), four parenthesis-tightening passes, collapsing
of whitespace runs to a single space, `insert_sentence_breaks`, and a final
strip.  Each `re.sub` pass is rendered as a structural scan over the
character list. -/

/-- Hiragana/Katakana (U+3040–U+30FF) or CJK unified ideograph (U+4E00–U+9FFF),
the character classes of the CJK spacing regexes. -/
def isCJKChar (c : Char) : Bool :=
  (0x3040 ≤ c.toNat && c.toNat ≤ 0x30FF) || (0x4E00 ≤ c.toNat && c.toNat ≤ 0x9FFF)

/-- The regex class `[A-Za-z0-9]`. -/
def isAlnumChar (c : Char) : Bool :=
  c.isAlpha || c.isDigit

/-- One whitespace-deletion pass.  A whitespace run is deleted iff the
character before the run satisfies `pl` (`prevA` carries that fact; runs at
the start of the string use the pass's initial value) and the first
non-whitespace character after the run satisfies `pr` (`endOk` decides runs
ending the string).  Since neither class contains whitespace this is exactly
the effect of the corresponding `(?<=..)\s+(?=..)`-style substitution. -/
def wsDelete (pl pr : Char → Bool) (endOk : Bool) : Bool → List Char → List Char
  | _, [] => []
  | prevA, c :: rest =>
    if c.isWhitespace then
      let nextOk :=
        match rest.dropWhile Char.isWhitespace with
        | d :: _ => pr d
        | [] => endOk
      (if prevA && nextOk then [] else [c]) ++ wsDelete pl pr endOk prevA rest
    else c :: wsDelete pl pr endOk (pl c) rest

/-- The pass `\s+` → `" "`: each whitespace run becomes a single space. -/
def collapseWs : List Char → List Char
  | [] => []
  | c :: rest =>
    if c.isWhitespace then
      (match rest with
       | d :: _ => if d.isWhitespace then [] else [' ']
       | [] => [' ']) ++ collapseWs rest
    else c :: collapseWs rest

/-- `charsPref`-based prefix match returning the remainder on success. -/
def matchPref : List Char → List Char → Option (List Char)
  | [], s => some s
  | _ :: _, [] => none
  | p :: ps, c :: cs => if p = c then matchPref ps cs else none

/-- At the current position, try to match one of `endings` followed directly
by one of `starters` (regex alternation: first alternative wins).  Returns
the matched ending and the total matched length. -/
def matchEndingStarter (endings starters : List String) (s : List Char) :
    Option (List Char × Nat) :=
  endings.findSome? (fun en =>
    match matchPref en.data s with
    | some rest1 =>
      (starters.findSome? (fun st =>
        if (matchPref st.data rest1).isSome then some st.data.length else none)).map
        (fun sl => (en.data, en.data.length + sl))
    | none => none)

/-- One `re.sub` pass of `insert_sentence_breaks`: scanning left to right,
replace `ending ++ starter` by `ending ++ "。"` (the match consumes the
starter word, exactly as the Python replacement `\1。` does) and continue
after the match.  `skip` counts characters of the current match still to
consume. -/
def subSentencePat (endings starters : List String) : Nat → List Char → List Char
  | _ + 1, [] => []
  | k + 1, _ :: rest => subSentencePat endings starters k rest
  | 0, [] => []
  | 0, c :: rest =>
    match matchEndingStarter endings starters (c :: rest) with
    | some (en, n) => en ++ ['。'] ++ subSentencePat endings starters (n - 1) rest
    | none => c :: subSentencePat endings starters 0 rest

/-- The sentence-start alternatives shared by the patterns of
`insert_sentence_breaks`. -/
def SENTENCE_STARTERS : List String :=
  ["既に", "また", "この", "その", "正しく", "サンプル", "JV", "パラメータ", "利用", "レジストリ"]

/-- The five patterns of `insert_sentence_breaks`, as (endings, starters)
pairs, in source order.  The lookaheads `(?=[^。。])` and `(?!あるいは)` of
the source regexes are omitted: they are implied by the consuming starter
group that follows them (no starter begins with `。` or `あ`), so they never
change which strings match. -/
def SENTENCE_PATTERNS : List (List String × List String) :=
  [ (["失敗"], SENTENCE_STARTERS),
    (["不正"], SENTENCE_STARTERS ++ ["データ"]),
    (["されている"], SENTENCE_STARTERS),
    (["ください"], SENTENCE_STARTERS),
    (["です", "ます"], SENTENCE_STARTERS) ]

/-- `insert_sentence_breaks` from `generate_error_catalog.py`: apply the five
substitution patterns in order. -/
def insert_sentence_breaks (text : String) : String :=
  SENTENCE_PATTERNS.foldl
    (fun acc p => String.mk (subSentencePat p.1 p.2 0 acc.data)) text

/-- `normalize_text` from `generate_error_catalog.py`. -/
def normalize_text (raw : String) : String :=
  let c0 := strReplace (strReplace raw "同上同上" "") "同上" ""
  let c1 := String.mk (wsDelete isCJKChar isCJKChar false false c0.data)
  let c2 := String.mk (wsDelete isCJKChar isAlnumChar false false c1.data)
  let c3 := String.mk (wsDelete isAlnumChar isCJKChar false false c2.data)
  let c4 := String.mk (wsDelete (fun _ => true) (fun c => c = '(') false true c3.data)
  let c5 := String.mk (wsDelete (fun c => c = '(') (fun _ => true) true false c4.data)
  let c6 := String.mk (wsDelete (fun _ => true) (fun c => c = ')') false true c5.data)
  let c7 := String.mk (wsDelete (fun c => c = ')') (fun _ => true) true false c6.data)
  let c8 := String.mk (collapseWs c7.data)
  strTrim (insert_sentence_breaks c8)

/-- `normalize_doc` from `generate_error_catalog.py`: space-join the non-empty
texts among meaning and notes, then `normalize_text`. -/
def normalize_doc (meaning notes : String) : String :=
  normalize_text (String.intercalate " " ([meaning, notes].filter (fun part => part ≠ "")))

/-! ## `generate_error_catalog.py`: record parsing -/

/-- One parsed row of `error_codes.md`, as appended to `records` by the
module-level parsing loop of `generate_error_catalog.py`. -/
structure ErrorRecord where
  methods : List String
  code : Int
  category : String
  meaning : String
  notes : String
  documentation : String
deriving DecidableEq, Repr

/-- The cell extraction of the parsing loop: strip the line, require a
leading `|`, and return `row.split("|")[1:-1]` with each segment stripped. -/
def rowFields (line : String) : Option (List String) :=
  let row := strTrim line
  if strStartsWith row "|" then
    some ((((strSplitOn row "|").drop 1).dropLast).map strTrim)
  else none

/-- The body of the record parsing loop of `generate_error_catalog.py` for a
single line: skip non-table lines, short rows, header rows, and rows whose
code cell contains no integer; otherwise build the record. -/
def parseRecordLine (line : String) : Option ErrorRecord :=
  match rowFields line with
  | none => none
  | some parts =>
    if parts.length < 3 then none
    else if strStartsWith (parts.getD 0 "") "Method" ∨ parts.getD 1 "" = "Code" ∨ parts.getD 1 "" = "コード" then none
    else
      let methods_raw := parts.getD 0 ""
      let code_raw := parts.getD 1 ""
      let meaning_raw := parts.getD 2 ""
      let notes := parts.getD 3 ""
      match normalize_code code_raw with
      | none => none
      | some code =>
        some { methods := normalize_methods methods_raw
               code := code
               category := infer_category (meaning_raw ++ " " ++ notes)
               meaning := normalize_text meaning_raw
               notes := normalize_text notes
               documentation := normalize_doc meaning_raw notes }

/-- The record parsing loop over the lines of the source file.  Each line is
handled independently (the loop only ever appends), so the loop is the
`filterMap` of `parseRecordLine`. -/
def parseRecords (lines : List String) : List ErrorRecord :=
  lines.filterMap parseRecordLine

/-! ## `generate_error_catalog.py`: consolidation -/

/-- The per-method override record built by the consolidation loop
(the dict `{"category": None, "message": None, "doc": None}`). -/
structure OverrideData where
  category : Option String
  message : Option String
  doc : Option String
deriving DecidableEq, Repr

/-- One value of the `catalog` dict: base fields fixed at entry creation,
plus the method set and override map that later records extend. -/
structure CatalogEntry where
  base_category : String
  base_message : String
  base_doc : String
  methods : List String
  overrides : List (String × OverrideData)
deriving DecidableEq, Repr

/-- `CODE_MESSAGES` lookup (`code in CODE_MESSAGES` / `CODE_MESSAGES[code]`). -/
def lookupMsg (c : Int) : Option String :=
  (CODE_MESSAGES.find? (fun p => p.1 = c)).map (fun p => p.2)

/-- `catalog` lookup (`code in catalog` / `catalog[code]`). -/
def lookupEntry (catalog : List (Int × CatalogEntry)) (c : Int) : Option CatalogEntry :=
  (catalog.find? (fun p => p.1 = c)).map (fun p => p.2)

/-- Lookup in a string-keyed association list (`dict.get` / `in`). -/
def lookupStr {β : Type} (l : List (String × β)) (k : String) : Option β :=
  (l.find? (fun p => p.1 = k)).map (fun p => p.2)

/-- In-place update of the value stored under key `c` (Python mutates the
dict value object; keys and their positions are unchanged). -/
def updateEntry (catalog : List (Int × CatalogEntry)) (c : Int)
    (f : CatalogEntry → CatalogEntry) : List (Int × CatalogEntry) :=
  catalog.map (fun p => if p.1 = c then (p.1, f p.2) else p)

/-- Store `v` under key `k`: replace in place if present, else append
(Python dict assignment / `setdefault` write-back). -/
def setKeyStr {β : Type} : List (String × β) → String → β → List (String × β)
  | [], k, v => [(k, v)]
  | (k', v') :: rest, k, v =>
    if k' = k then (k, v) :: rest else (k', v') :: setKeyStr rest k v

/-- Duplicate-free list preserving first occurrences: our rendering of a
Python `set` built by insertion (iteration order of the Python set is
unspecified; no theorem depends on the order fixed here). -/
def dedupFirst (l : List String) : List String :=
  l.foldl (fun acc x => if acc.contains x then acc else acc ++ [x]) []

/-- Set union `entry["methods"].update(method_keys)`. -/
def unionMethods (old new : List String) : List String :=
  old ++ new.filter (fun m => ¬ old.contains m)

/-- The three conditional override-field updates of the consolidation loop,
applied to the override record of one method for one raw record. -/
def updOverride (category base_category documentation base_doc : String)
    (mmm : List (String × String)) (method : String) (ov : OverrideData) : OverrideData :=
  let ov1 := if category ≠ base_category then { ov with category := some category } else ov
  let ov2 :=
    match lookupStr mmm method with
    | some msg => { ov1 with message := some msg }
    | none => ov1
  if documentation ≠ "" ∧ documentation ≠ base_doc then { ov2 with doc := some documentation }
  else ov2

/-- The per-record body of the consolidation loop after the fatal check:
union the record's upper-cased methods into the entry's method set, then for
each method `setdefault` an override record and apply the conditional
updates.  Base fields are never touched. -/
def applyRecord (category documentation : String) (method_keys : List String)
    (mmm : List (String × String)) (e : CatalogEntry) : CatalogEntry :=
  let e1 := { e with methods := unionMethods e.methods method_keys }
  method_keys.foldl
    (fun acc m =>
      let ov0 := (lookupStr acc.overrides m).getD { category := none, message := none, doc := none }
      let ov1 := updOverride category acc.base_category documentation acc.base_doc mmm m ov0
      { acc with overrides := setKeyStr acc.overrides m ov1 })
    e1

/-- One iteration of the consolidation loop of `generate_error_catalog.py`:
fatal (`SystemExit`) when the code has no canonical message; otherwise create
the entry on first sight of the code (base fields from this record) and apply
the record to it. -/
def consolidateStep (catalog : List (Int × CatalogEntry)) (r : ErrorRecord) :
    Except String (List (Int × CatalogEntry)) :=
  let method_keys := dedupFirst (r.methods.map strToUpper)
  match lookupMsg r.code with
  | none => .error ("Missing English message for code " ++ toString r.code)
  | some msg =>
    let mmm := (((METHOD_MESSAGE_OVERRIDES.find? (fun p => p.1 = r.code)).map (fun p => p.2)).getD []).map
      (fun kv => (strToUpper kv.1, kv.2))
    let catalog1 :=
      if (lookupEntry catalog r.code).isSome then catalog
      else catalog ++ [(r.code,
        { base_category := r.category
          base_message := msg
          base_doc := r.documentation
          methods := method_keys
          overrides := [] })]
    .ok (updateEntry catalog1 r.code (applyRecord r.category r.documentation method_keys mmm))

/-- The consolidation loop over all records, threading the catalog and
aborting at the first record whose code has no canonical message. -/
def consolidate : List ErrorRecord → List (Int × CatalogEntry) →
    Except String (List (Int × CatalogEntry))
  | [], catalog => .ok catalog
  | r :: rest, catalog =>
    match consolidateStep catalog r with
    | .error e => .error e
    | .ok catalog' => consolidate rest catalog'

/-! ## `generate_error_catalog.py`: emission of the generated catalog

The emission loop writes F# source text; we model the structured content of
each emitted entry (the fields that appear in the generated `JvErrorInfo`
values), not the surrounding boilerplate. -/

/-- An override as emitted (`category_expr` / `message_expr` / `doc_expr`):
each field is rendered `Some …` only when truthy (non-`None` and non-empty). -/
structure EmittedOverride where
  category : Option String
  message : Option String
  documentation : Option String
deriving DecidableEq, Repr

/-- One emitted catalog entry (`{ Base = …; Methods = …; Overrides = … }`). -/
structure EmittedEntry where
  code : Int
  category : String
  message : String
  documentation : String
  methods : List String
  overrides : List (String × EmittedOverride)
deriving DecidableEq, Repr

/-- Python truthiness of an optional string (`if data[...] else None`). -/
def pyOptStr (o : Option String) : Option String :=
  match o with
  | some s => if s = "" then none else some s
  | none => none

/-- `sorted` on integer keys (ascending). -/
def sortInts (l : List Int) : List Int :=
  sortByLe (fun a b => decide (a ≤ b)) l

/-- `sorted` on strings (Python sorts strings by code point, as does the
`LinearOrder` on `String`). -/
def sortStrings (l : List String) : List String :=
  sortByLe strLeB l

/-- `sorted(overrides_filtered.items())`: the keys are distinct, so Python's
tuple order is the key order. -/
def sortOverridePairs (l : List (String × OverrideData)) : List (String × OverrideData) :=
  sortByLe (fun a b => strLeB a.1 b.1) l

/-- The body of the emission loop for one code: methods sorted, overrides
filtered to those with a category or message (`is not None`), sorted, and
rendered with truthy fields. -/
def emitEntry (c : Int) (e : CatalogEntry) : EmittedEntry :=
  { code := c
    category := e.base_category
    message := e.base_message
    documentation := e.base_doc
    methods := sortStrings e.methods
    overrides :=
      (sortOverridePairs (e.overrides.filter
        (fun p => p.2.category.isSome || p.2.message.isSome))).map
        (fun p => (p.1,
          { category := pyOptStr p.2.category
            message := pyOptStr p.2.message
            documentation := pyOptStr p.2.doc })) }

/-- The emission loop: entries in ascending code order. -/
def emit (catalog : List (Int × CatalogEntry)) : List EmittedEntry :=
  (sortInts (catalog.map (fun p => p.1))).filterMap
    (fun c => (lookupEntry catalog c).map (emitEntry c))

/-- The whole `generate_error_catalog.py` run on the lines of the source
file: parse records, consolidate, emit.  The `.ok` payload is the content of
the generated artifact (`TARGET.write_text` happens only after the
consolidation loop finished without raising); an `.error` result is the
`SystemExit` abort, in which case nothing is written. -/
def runCatalog (lines : List String) : Except String (List EmittedEntry) :=
  (consolidate (parseRecords lines) []).map emit

/-! ## `generate_api_docs.py`: method-name table and fragment repair -/

/-- `METHOD_NAMES` from `generate_api_docs.py`: the fixed declared list of
API method names, in declaration order. -/
def METHOD_NAMES : List String :=
  [ "JVInit", "JVSetUIProperties", "JVSetServiceKey", "JVSetSaveFlag", "JVSetSavePath",
    "JVOpen", "JVRTOpen", "JVStatus", "JVRead", "JVGets", "JVSkip", "JVCancel", "JVClose",
    "JVFiledelete", "JVFukuFile", "JVFuku", "JVMVCheck", "JVMVCheckWithType", "JVMVPlay",
    "JVMVPlayWithType", "JVMVOpen", "JVMVRead", "JVCourseFile", "JVCourseFile2",
    "JVWatchEvent", "JVWatchEventClose" ]

/-- The fragment-repair loop of `parse_methods`: if the current line
concatenated with the next is exactly a method name while the current line
alone is not, merge both lines into the boundary token and advance two lines. -/
def mergeFragments : List String → List String
  | [] => []
  | [x] => [x]
  | x :: y :: rest =>
    let combined := strTrim (x ++ y)
    if METHOD_NAMES.contains combined ∧ ¬ METHOD_NAMES.contains x then
      combined :: mergeFragments rest
    else
      x :: mergeFragments (y :: rest)

/-- `[idx for idx, value in enumerate(l) if value == t]`. -/
def occIndices (l : List String) (t : String) : List Nat :=
  (l.enum.filter (fun p => p.2 = t)).map Prod.fst

/-! ## `generate_api_docs.py`: the method-section segmenter

The segmentation `while` loop of `parse_methods` advances an index with
inner skip loops; we render it as a fold over the detail lines with the loop
position made explicit:

* `SegMode.normal` — at the top of the loop;
* `SegMode.afterName` — inside the iteration that matched a method-name
  boundary, skipping blank lines and optionally consuming a summary line;
* `SegMode.inBlock key block` — inside the bracket-section accumulation loop
  for `【key】`, with `block` the lines collected so far.
-/

/-- One parsed method (`{"name": …, "summary": …, "sections": {…}}`). -/
structure MethodDef where
  name : String
  summary : String
  sections : List (String × String)
deriving DecidableEq, Repr

/-- Loop position inside the segmentation loop. -/
inductive SegMode where
  | normal : SegMode
  | afterName : SegMode
  | inBlock : String → List String → SegMode
deriving DecidableEq, Repr

/-- Full segmentation-loop state: next expected index into `METHOD_NAMES`,
the method being built, the finished methods, and the loop position. -/
structure SegState where
  midx : Nat
  cur : Option MethodDef
  acc : List MethodDef
  mode : SegMode
deriving DecidableEq, Repr

/-- `current["sections"][key] = "\n".join(block).strip()`. -/
def closeSection (cur : Option MethodDef) (key : String) (block : List String) :
    Option MethodDef :=
  cur.map (fun c =>
    { c with sections := setKeyStr c.sections key (strTrim (String.intercalate "\n" block)) })

/-- The top of the segmentation loop for one line: while names remain
(`method_idx < len(METHOD_NAMES)`), a line equal to the next expected name
closes the current method and opens a new one (entering `afterName`); with a
current method, a `【…】` line opens a bracket section; anything else is
skipped.  Once all names are consumed the loop has exited and every line is
ignored. -/
def handleNormal (st : SegState) (line : String) : SegState :=
  if st.midx < METHOD_NAMES.length then
    if line = METHOD_NAMES.getD st.midx "" then
      { midx := st.midx + 1
        cur := some { name := line, summary := "", sections := [] }
        acc := st.acc ++ st.cur.toList
        mode := SegMode.afterName }
    else
      match st.cur with
      | none => st
      | some _ =>
        if strStartsWith line "【" ∧ strEndsWith line "】" then
          { st with mode := SegMode.inBlock ((line.drop 1).dropRight 1) [] }
        else st
  else st

/-- One line of the segmentation loop (see `SegMode` for the correspondence
with the source's index-mutating loops). -/
def segStep (st : SegState) (line : String) : SegState :=
  match st.mode with
  | SegMode.normal => handleNormal st line
  | SegMode.afterName =>
    if line = "" then st
    else if ¬ METHOD_NAMES.contains line ∧ ¬ strStartsWith line "【" then
      { st with cur := st.cur.map (fun c => { c with summary := line })
                mode := SegMode.normal }
    else handleNormal { st with mode := SegMode.normal } line
  | SegMode.inBlock key block =>
    if line = "" then { st with mode := SegMode.inBlock key (block ++ [""]) }
    else if strStartsWith line "【" ∧ strEndsWith line "】" then
      handleNormal { st with cur := closeSection st.cur key block, mode := SegMode.normal } line
    else if METHOD_NAMES.get? st.midx = some line then
      handleNormal { st with cur := closeSection st.cur key block, mode := SegMode.normal } line
    else { st with mode := SegMode.inBlock key (block ++ [line]) }

/-- End of input: a pending bracket section is written back, then the
current method, if any, is appended (`if current: methods.append(current)`). -/
def segFinish (st : SegState) : List MethodDef :=
  st.acc ++ (match st.mode with
    | SegMode.inBlock key block => closeSection st.cur key block
    | _ => st.cur).toList

/-- The segmentation loop of `parse_methods` over the detail lines. -/
def segMethods (detail : List String) : List MethodDef :=
  segFinish (detail.foldl segStep
    { midx := 0, cur := none, acc := [], mode := SegMode.normal })

/-- The segmentation part of `parse_methods` (`generate_api_docs.py`): merge
fragmented tokens, anchor at the second occurrence of `"JVInit"` (raising
when there are fewer than two), and segment from the anchor on.  The HTML
extraction that produces the flat line list is upstream of this function and
out of scope; its output is the `processed` parameter. -/
def parseMethodDefs (processed : List String) : Except String (List MethodDef) :=
  let merged := mergeFragments processed
  let indices := occIndices merged "JVInit"
  if indices.length < 2 then .error "Unable to locate method detail section."
  else .ok (segMethods (merged.drop (indices.getD 1 0)))

/-! ## `generate_api_docs.py`: method grouping -/

/-- One member of a method group (`{"name": …, "summary": …}`). -/
structure MethodSummary where
  name : String
  summary : String
deriving DecidableEq, Repr

/-- One grouped output record of `parse_methods`. -/
structure MethodGroup where
  title : String
  methods : List MethodSummary
  sections : List (String × String)
deriving DecidableEq, Repr

/-- The `grouping` list of `parse_methods`: method-name pairs to merge. -/
def GROUPING : List (String × String) :=
  [ ("JVMVCheck", "JVMVCheckWithType"),
    ("JVMVPlay", "JVMVPlayWithType"),
    ("JVWatchEvent", "JVWatchEventClose") ]

/-- `method_lookup = {m["name"]: m for m in methods}`: a dict comprehension
keeps the last binding of a name, hence the lookup in the reversed list. -/
def lookupMethod (methods : List MethodDef) (n : String) : Option MethodDef :=
  methods.reverse.find? (fun m => m.name = n)

/-- The Python expression `a or b or ""` on two optional strings
(`None` and `""` are both falsy). -/
def firstNonEmpty (a b : Option String) : String :=
  if a.getD "" ≠ "" then a.getD "" else b.getD ""

/-- The merged sections of a grouped pair: every key of either constituent,
valued by the first non-empty content, primary first.  (Python iterates the
`set` of keys in unspecified order; we fix first-occurrence order, and
nothing proved below depends on it.) -/
def mergedSections (mp msec : MethodDef) : List (String × String) :=
  (dedupFirst (mp.sections.map (fun p => p.1) ++ msec.sections.map (fun p => p.1))).map
    (fun k => (k, firstNonEmpty (lookupStr mp.sections k) (lookupStr msec.sections k)))

/-- The grouped record built for a `(primary, secondary)` pair. -/
def mkPairGroup (pn sn : String) (mp msec : MethodDef) : MethodGroup :=
  { title := pn ++ " / " ++ sn
    methods :=
      [ { name := pn, summary := if mp.summary = "" then "See shared details below." else mp.summary },
        { name := sn, summary := if msec.summary = "" then "See shared details below." else msec.summary } ]
    sections := mergedSections mp msec }

/-- The singleton group built for an ungrouped method. -/
def mkSingleGroup (n : String) (info : MethodDef) : MethodGroup :=
  { title := n
    methods := [{ name := n, summary := if info.summary = "" then "See details below." else info.summary }]
    sections := info.sections }

/-- One iteration of the pair-grouping loop: when both members are present,
append the pair group and record both names as grouped. -/
def pairStep (methods : List MethodDef) (st : List MethodGroup × List String)
    (pr : String × String) : List MethodGroup × List String :=
  match lookupMethod methods pr.1, lookupMethod methods pr.2 with
  | some mp, some msec => (st.1 ++ [mkPairGroup pr.1 pr.2 mp msec], st.2 ++ [pr.1, pr.2])
  | _, _ => st

/-- One iteration of the singleton loop over `METHOD_NAMES`: skip grouped or
absent names, append a singleton group otherwise. -/
def singleStep (methods : List MethodDef) (gnames : List String)
    (acc : List MethodGroup) (n : String) : List MethodGroup :=
  if gnames.contains n then acc
  else
    match lookupMethod methods n with
    | some info => acc ++ [mkSingleGroup n info]
    | none => acc

/-- The grouping stage of `parse_methods`: the pair loop over `grouping`
followed by the singleton loop over `METHOD_NAMES`. -/
def group_methods (methods : List MethodDef) : List MethodGroup :=
  let st := GROUPING.foldl (pairStep methods) ([], [])
  METHOD_NAMES.foldl (singleStep methods st.2) st.1

/-- All of `parse_methods` (`generate_api_docs.py`) downstream of the HTML
extraction: segmentation then grouping. -/
def parse_methods (processed : List String) : Except String (List MethodGroup) :=
  (parseMethodDefs processed).map group_methods

/-! ## `generate_api_docs.py`: `collapse_table_rows` -/

/-- The default `is_new_row` predicate: `bool(r and r[0])`. -/
def defaultIsNewRow (r : List String) : Bool :=
  match r with
  | [] => false
  | c :: _ => c ≠ ""

/-- `row + [""] * max(0, len(header) - len(row))`. -/
def padTo (hlen : Nat) (row : List String) : List String :=
  row ++ List.replicate (hlen - row.length) ""

/-- The per-cell continuation merge: a non-empty cell is appended
space-joined onto the current value (stripped), an empty cell has no
effect. -/
def mergeCell (prev v : String) : String :=
  if v = "" then prev
  else if prev = "" then v
  else strTrim (prev ++ " " ++ v)

/-- One iteration of the `collapse_table_rows` loop.  The state is
(finished records, current record): `collapsed` is the header followed by the
finished records and then the current record, the Python list holding the
same (aliased, still-mutable) `current` object that continuation rows merge
into.  A continuation row with no current record — or with the falsy current
record `[]` — is discarded. -/
def collapseStep (hlen : Nat) (isNew : List String → Bool)
    (st : List (List String) × Option (List String)) (row : List String) :
    List (List String) × Option (List String) :=
  let padded := (padTo hlen row).take hlen
  if isNew row then (st.1 ++ st.2.toList, some padded)
  else
    match st.2 with
    | some cur =>
      if cur.isEmpty then st
      else (st.1, some (List.zipWith mergeCell cur padded))
    | none => st

/-- The fold of `collapseStep` over the data rows. -/
def collapseFold (hlen : Nat) (isNew : List String → Bool)
    (rows : List (List String)) : List (List String) × Option (List String) :=
  rows.foldl (collapseStep hlen isNew) ([], none)

/-- `collapse_table_rows` from `generate_api_docs.py` (the predicate is an
explicit parameter; callers that pass `None` use `defaultIsNewRow`). -/
def collapse_table_rows (rows : List (List String)) (isNew : List String → Bool) :
    List (List String) :=
  match rows with
  | [] => []
  | header :: rest =>
    let st := collapseFold header.length isNew rest
    header :: (st.1 ++ st.2.toList)

/-! ## Spec-side characterisations (used to state claims) -/

/-- The grouping pairs both of whose members occur in the parsed methods. -/
def presentPairs (methods : List MethodDef) : List (String × String) :=
  GROUPING.filter (fun pr => (lookupMethod methods pr.1).isSome && (lookupMethod methods pr.2).isSome)

/-- The names consumed by present grouping pairs. -/
def pairedNames (methods : List MethodDef) : List String :=
  (presentPairs methods).flatMap (fun pr => [pr.1, pr.2])

/-- The group-title order asserted by the spec: walk `METHOD_NAMES` in
declared order; a primary member of a present pair contributes the pair's
title at its own position, a secondary member is skipped, and any other
present method contributes a singleton title.  (This is the claim's
formalisation, written from the spec's words for comparison with
`group_methods`.) -/
def claimedTitleOrder (methods : List MethodDef) : List String :=
  METHOD_NAMES.filterMap (fun n =>
    match (presentPairs methods).find? (fun pr => pr.1 = n) with
    | some pr => some (pr.1 ++ " / " ++ pr.2)
    | none =>
      if (presentPairs methods).any (fun pr => pr.2 = n) then none
      else if (lookupMethod methods n).isSome then some n else none)

/-! ## Auxiliary definitions and concrete fixtures used by the claims -/

/-- Concrete fixture for the C9 witness: two raw rows with the same code
`-301` and different documentation. -/
def c9records : List ErrorRecord :=
  parseRecords ["| JVOpen | -301 | docA | |", "| JVStatus | -301 | docB | |"]

/-- The catalog the consolidation loop produces on `c9records`. -/
def c9final : List (Int × CatalogEntry) :=
  match consolidate c9records [] with
  | .ok cat => cat
  | .error _ => []

/-- The consolidated entry for code `-301` in `c9final`. -/
def c9entry : CatalogEntry :=
  (lookupEntry c9final (-301)).getD
    { base_category := "", base_message := "", base_doc := "", methods := [], overrides := [] }

/-- The catalog built from the two-row fixture whose second row deviates
from the first only in documentation. -/
def c3catalog : List (Int × CatalogEntry) :=
  match consolidate (parseRecords ["| JVOpen | -301 | docA | |", "| JVStatus | -301 | docB | |"]) [] with
  | .ok cat => cat
  | .error _ => []

/-- `occIndices` generalised to `enumFrom`. -/
def occFrom (n : Nat) (l : List String) (t : String) : List Nat :=
  ((List.enumFrom n l).filter (fun p => p.2 = t)).map Prod.fst

/-- The invariant that every produced or in-progress method name is one of
the declared `METHOD_NAMES`. -/
def namesOk (st : SegState) : Prop :=
  (∀ m ∈ st.acc, m.name ∈ METHOD_NAMES) ∧
  (∀ c, st.cur = some c → c.name ∈ METHOD_NAMES)

/-- The group a present pair contributes (total version of `pairStep`'s
payload, defined for stating the fold's closed form). -/
def pairGroupOf (methods : List MethodDef) (pr : String × String) : MethodGroup :=
  mkPairGroup pr.1 pr.2
    ((lookupMethod methods pr.1).getD { name := "", summary := "", sections := [] })
    ((lookupMethod methods pr.2).getD { name := "", summary := "", sections := [] })

/-- Input lines for the C2 counterexample: a table-of-contents `"JVInit"`
followed by the full method-detail listing (all 26 names in order). -/
def c2lines : List String := "JVInit" :: METHOD_NAMES

/-- The methods the segmenter produces on `c2lines`. -/
def c2ms : List MethodDef :=
  match parseMethodDefs c2lines with
  | .ok ms => ms
  | .error _ => []

/-! ## Claim C1: code normalisation of minus glyphs -/

/-- Claim C1 — counterexample.  The claim asserts that the fullwidth-minus
string `"－301"` (U+FF0D) normalises to `-301`; `normalize_code` only
replaces U+2015 and U+2212, so the U+FF0D glyph survives and the first
`-?\d+` match is the unsigned `301`. -/
theorem normalize_code_fullwidth_counterexample :
    normalize_code "－301" = some 301 ∧ normalize_code "－301" ≠ some (-301) := by
  exact ⟨rfl, by decide⟩

/-- Claim C1 (amended): `normalize_code` strips the variant minus glyphs
U+2015 (`―`) and U+2212 (`−`) and extracts the leading signed integer, so
`"―301"`, `"−301"` and `"-301"` all normalise to `-301`, while the
fullwidth-minus string `"－301"` (U+FF0D, which the upstream NFKC
normalisation already folds to ASCII `-` before this function ever sees it)
yields `301`. -/
theorem normalize_code_minus_variants :
    normalize_code "―301" = some (-301) ∧ normalize_code "−301" = some (-301) ∧
    normalize_code "-301" = some (-301) ∧ normalize_code "－301" = some 301 := by
  exact ⟨rfl, rfl, rfl, rfl⟩

/-! ## Claim C10: a continuation row before any record row is discarded -/

/-- Claim C10: when the data row immediately after the header fails the
`is_new_row` predicate, no current record exists yet, so
`collapse_table_rows` silently discards the row: the output is exactly the
collapse of the remaining rows, with no trace of the discarded cells. -/
theorem collapse_discards_leading_continuation (header r : List String)
    (rest : List (List String)) (p : List String → Bool) (h : p r = false) :
    collapse_table_rows (header :: r :: rest) p = collapse_table_rows (header :: rest) p := by
  unfold collapse_table_rows collapseFold
  simp [collapseStep, h]

/-- Claim C10 — witness: `["", "lost"]` fails the default predicate and is
dropped outright. -/
theorem collapse_discards_leading_continuation_witness :
    defaultIsNewRow ["", "lost"] = false ∧
    collapse_table_rows [["A", "B"], ["", "lost"], ["x", "1"]] defaultIsNewRow =
      collapse_table_rows [["A", "B"], ["x", "1"]] defaultIsNewRow :=
  ⟨by decide,
   collapse_discards_leading_continuation ["A", "B"] ["", "lost"] [["x", "1"]]
     defaultIsNewRow (by decide)⟩

/-! ## Claim C6: continuation rows merge cell-wise into the current record -/

/-- Claim C6: appending a continuation row (one failing `is_new_row`) to a
table whose collapse currently holds a (non-empty) current record replaces
that record — the last collapsed row — by its cell-wise merge with the
continuation row: each non-empty cell is appended space-joined onto the
corresponding column, and empty cells have no effect (see `mergeCell`). -/
theorem collapse_appends_continuation_cells (header r : List String)
    (rows : List (List String)) (p : List String → Bool) (c : List String)
    (hnew : p r = false)
    (hcur : (collapseFold header.length p rows).2 = some c)
    (hc : c ≠ []) :
    collapse_table_rows (header :: (rows ++ [r])) p =
      (collapse_table_rows (header :: rows) p).dropLast
        ++ [List.zipWith mergeCell c ((padTo header.length r).take header.length)] := by
  have hemp : c.isEmpty = false := by
    cases c with
    | nil => exact absurd rfl hc
    | cons x xs => rfl
  unfold collapse_table_rows collapseFold
  unfold collapseFold at hcur
  dsimp only
  rw [List.foldl_append]
  set st := List.foldl (collapseStep header.length p) ([], none) rows with hst
  have hstep : collapseStep header.length p st r =
      (st.1, some (List.zipWith mergeCell c ((padTo header.length r).take header.length))) := by
    unfold collapseStep
    rw [hnew, hcur]
    simp [hemp]
  simp only [List.foldl_cons, List.foldl_nil]
  rw [hstep, hcur]
  dsimp only [Option.toList]
  rw [show (header :: (st.1 ++ [c])) = (header :: st.1) ++ [c] from rfl, List.dropLast_concat]
  simp

/-- Claim C6 — witness: the claim's concrete example.  With header
`["A","B"]`, record row `["x","1"]` and continuation row `["","2"]`, the
collapsed output is `[["A","B"],["x","1 2"]]`. -/
theorem collapse_appends_continuation_cells_witness :
    defaultIsNewRow ["", "2"] = false ∧
    (collapseFold 2 defaultIsNewRow [["x", "1"]]).2 = some ["x", "1"] ∧
    collapse_table_rows [["A", "B"], ["x", "1"], ["", "2"]] defaultIsNewRow =
      [["A", "B"], ["x", "1 2"]] :=
  ⟨by decide, by decide,
   (collapse_appends_continuation_cells ["A", "B"] ["", "2"] [["x", "1"]]
      defaultIsNewRow ["x", "1"] (by decide) (by decide) (by decide)).trans (by decide)⟩

/-! ## Claim C4: rows whose code cell has no integer -/

/-- Claim C4 — counterexample.  The claim asserts that a table row whose
code text contains no extractable integer is folded into the previous
entry's notes.  Parsing a valid row followed by such a row yields only the
first record, with its notes exactly `"n1"`: the second row's text (`"m2"`,
`"n2"`) is dropped entirely, not folded anywhere. -/
theorem parse_records_no_code_counterexample :
    parseRecords ["| JVOpen | -1 | m1 | n1 |", "| JVClose | abc | m2 | n2 |"] =
      [{ methods := ["JVOpen"], code := -1, category := "other", meaning := "m1",
         notes := "n1", documentation := "m1 n1" }] ∧
    (parseRecords ["| JVOpen | -1 | m1 | n1 |", "| JVClose | abc | m2 | n2 |"]).map
      (fun rec => rec.notes) = ["n1"] := by
  exact ⟨by decide, by decide⟩

/-- Claim C4 (amended): when the record-parsing loop of
`generate_error_catalog.py` meets a table row whose code cell contains no
extractable integer, it skips that row entirely (`continue`): the parsed
records are exactly those of the input without the row, so previous entries
— their notes included — are unchanged and the row's text appears nowhere.
(The fold-into-previous-notes behaviour exists only upstream, in
`parse_error_codes` of `generate_api_docs.py`, and only for rows that reduce
to a single non-empty cell or whose code cell splits into no tokens.) -/
theorem parse_records_skip_no_code (pre post : List String) (line : String)
    (parts : List String)
    (hrow : rowFields line = some parts)
    (hlen : ¬ parts.length < 3)
    (hhdr : ¬ (strStartsWith (parts.getD 0 "") "Method" ∨ parts.getD 1 "" = "Code" ∨ parts.getD 1 "" = "コード"))
    (hcode : normalize_code (parts.getD 1 "") = none) :
    parseRecords (pre ++ line :: post) = parseRecords (pre ++ post) := by
  have hnone : parseRecordLine line = none := by
    unfold parseRecordLine
    rw [hrow]
    simp only [hlen, if_false, hhdr, hcode]
  unfold parseRecords
  simp [List.filterMap_append, List.filterMap_cons, hnone]

/-- Claim C4 — witness: the amended claim at the counterexample's input. -/
theorem parse_records_skip_no_code_witness :
    parseRecords ["| JVOpen | -1 | m1 | n1 |", "| JVClose | abc | m2 | n2 |"] =
      parseRecords ["| JVOpen | -1 | m1 | n1 |"] :=
  parse_records_skip_no_code ["| JVOpen | -1 | m1 | n1 |"] [] "| JVClose | abc | m2 | n2 |"
    ["JVClose", "abc", "m2", "n2"] (by decide) (by decide) (by decide) (by decide)

/-! ## Catalog-fold lemmas (for Claims C5 and C9) -/

/-- `lookupEntry` across an append splits on the left lookup. -/
theorem lookupEntry_append (cat1 cat2 : List (Int × CatalogEntry)) (c : Int) :
    lookupEntry (cat1 ++ cat2) c =
      match lookupEntry cat1 c with
      | some e => some e
      | none => lookupEntry cat2 c := by
  induction cat1 with
  | nil => simp [lookupEntry]
  | cons p rest ih =>
    by_cases hp : p.1 = c
    · simp [lookupEntry, List.find?_cons, hp]
    · simpa [lookupEntry, List.find?_cons, hp] using ih

/-- `find?` on the first component commutes with a key-preserving map. -/
theorem find?_map_fst {α β : Type} [DecidableEq α] (g : α × β → α × β)
    (hg : ∀ p, (g p).1 = p.1) (l : List (α × β)) (c : α) :
    (l.map g).find? (fun p => p.1 = c) = (l.find? (fun p => p.1 = c)).map g := by
  induction l with
  | nil => simp
  | cons p rest ih =>
    by_cases hp : p.1 = c
    · simp [List.find?_cons, hg, hp]
    · simp [List.find?_cons, hg, hp, ih]

/-- `lookupEntry` after `updateEntry`: the updated key reads through `f`,
other keys are untouched. -/
theorem lookupEntry_updateEntry (cat : List (Int × CatalogEntry)) (k c : Int)
    (f : CatalogEntry → CatalogEntry) :
    lookupEntry (updateEntry cat k f) c =
      if k = c then (lookupEntry cat c).map f else lookupEntry cat c := by
  unfold lookupEntry updateEntry
  rw [find?_map_fst _ (fun p => by by_cases h : p.1 = k <;> simp [h])]
  cases hfind : cat.find? (fun p => p.1 = c) with
  | none => simp
  | some q =>
    have hq : q.1 = c := by simpa using List.find?_some hfind
    by_cases hkc : k = c
    · simp [hq, hkc]
    · have hqk : ¬ q.1 = k := by rw [hq]; exact fun h => hkc h.symm
      simp [hqk, hkc]

/-- `applyRecord` never touches the base fields of an entry. -/
theorem applyRecord_base (category documentation : String) (method_keys : List String)
    (mmm : List (String × String)) (e : CatalogEntry) :
    (applyRecord category documentation method_keys mmm e).base_category = e.base_category ∧
    (applyRecord category documentation method_keys mmm e).base_message = e.base_message ∧
    (applyRecord category documentation method_keys mmm e).base_doc = e.base_doc := by
  unfold applyRecord
  generalize hstart : ({ e with methods := unionMethods e.methods method_keys } : CatalogEntry) = e1
  have hbase : e1.base_category = e.base_category ∧ e1.base_message = e.base_message ∧
      e1.base_doc = e.base_doc := by rw [← hstart]; exact ⟨rfl, rfl, rfl⟩
  clear hstart
  induction method_keys generalizing e1 with
  | nil => simpa using hbase
  | cons m rest ih =>
    simp only [List.foldl_cons]
    exact ih _ ⟨hbase.1, hbase.2.1, hbase.2.2⟩

/-- If some record's code has no canonical message, the consolidation loop
aborts with the `Missing English message` error naming such a code. -/
theorem consolidate_error_of_missing :
    ∀ (records : List ErrorRecord) (catalog : List (Int × CatalogEntry)),
      (∃ r ∈ records, lookupMsg r.code = none) →
      ∃ c, lookupMsg c = none ∧ (∃ r ∈ records, r.code = c) ∧
        consolidate records catalog = .error ("Missing English message for code " ++ toString c)
  | [], _, h => absurd h (by simp)
  | r :: rest, catalog, h => by
    cases hr : lookupMsg r.code with
    | none =>
      refine ⟨r.code, hr, ⟨r, by simp, rfl⟩, ?_⟩
      simp [consolidate, consolidateStep, hr]
    | some m =>
      have hrest : ∃ x ∈ rest, lookupMsg x.code = none := by
        obtain ⟨x, hx, hxnone⟩ := h
        rcases List.mem_cons.mp hx with hxr | hxm
        · exact absurd (hxr ▸ hxnone) (by simp [hr])
        · exact ⟨x, hxm, hxnone⟩
      obtain ⟨c, hc1, ⟨x, hx, hx2⟩, hc3⟩ :=
        consolidate_error_of_missing rest
          (updateEntry
            (if (lookupEntry catalog r.code).isSome then catalog
             else catalog ++ [(r.code,
               { base_category := r.category, base_message := m, base_doc := r.documentation,
                 methods := dedupFirst (r.methods.map strToUpper), overrides := [] })])
            r.code
            (applyRecord r.category r.documentation (dedupFirst (r.methods.map strToUpper))
              ((((METHOD_MESSAGE_OVERRIDES.find? (fun p => p.1 = r.code)).map (fun p => p.2)).getD []).map
                (fun kv => (strToUpper kv.1, kv.2)))))
          hrest
      refine ⟨c, hc1, ⟨x, by simp [hx], hx2⟩, ?_⟩
      simpa [consolidate, consolidateStep, hr] using hc3

/-! ## Claim C5: fatal abort on a code with no canonical message -/

/-- Claim C5: if any parsed raw entry carries a code absent from
`CODE_MESSAGES`, the catalog run aborts with the `SystemExit` error naming
such a code, and the run never reaches `TARGET.write_text`: the result is an
`.error`, never an `.ok` artifact, so no partial artifact exists. -/
theorem catalog_aborts_on_unknown_code (lines : List String)
    (h : ∃ r ∈ parseRecords lines, lookupMsg r.code = none) :
    ∃ c, lookupMsg c = none ∧ (∃ r ∈ parseRecords lines, r.code = c) ∧
      runCatalog lines = .error ("Missing English message for code " ++ toString c) ∧
      ∀ out, runCatalog lines ≠ .ok out := by
  obtain ⟨c, hc1, hc2, hc3⟩ := consolidate_error_of_missing (parseRecords lines) [] h
  refine ⟨c, hc1, hc2, ?_, ?_⟩
  · simp [runCatalog, hc3, Except.map]
  · intro out
    simp [runCatalog, hc3, Except.map]

/-- Claim C5 — witness: a single row with the unknown code `-999` makes the
run abort with the error naming `-999`, and no artifact is produced. -/
theorem catalog_aborts_on_unknown_code_witness :
    ∃ c, lookupMsg c = none ∧
      (∃ r ∈ parseRecords ["| JVOpen | -999 | boom | |"], r.code = c) ∧
      runCatalog ["| JVOpen | -999 | boom | |"] =
        .error ("Missing English message for code " ++ toString c) ∧
      ∀ out, runCatalog ["| JVOpen | -999 | boom | |"] ≠ .ok out :=
  catalog_aborts_on_unknown_code ["| JVOpen | -999 | boom | |"] (by decide)

/-- Once an entry exists in the catalog, the rest of the consolidation loop
never changes its base fields. -/
theorem consolidate_base_preserved :
    ∀ (records : List ErrorRecord) (catalog final : List (Int × CatalogEntry))
      (c : Int) (e : CatalogEntry),
      consolidate records catalog = .ok final →
      lookupEntry catalog c = some e →
      ∃ e', lookupEntry final c = some e' ∧
        e'.base_category = e.base_category ∧ e'.base_message = e.base_message ∧
        e'.base_doc = e.base_doc
  | [], catalog, final, c, e, hok, hc => by
    simp only [consolidate] at hok
    cases hok
    exact ⟨e, hc, rfl, rfl, rfl⟩
  | r :: rest, catalog, final, c, e, hok, hc => by
    cases hr : lookupMsg r.code with
    | none => simp [consolidate, consolidateStep, hr] at hok
    | some m =>
      simp only [consolidate, consolidateStep, hr] at hok
      set mks := dedupFirst (r.methods.map strToUpper) with hmks
      set mmm := ((((METHOD_MESSAGE_OVERRIDES.find? (fun p => p.1 = r.code)).map (fun p => p.2)).getD []).map
        (fun kv => (strToUpper kv.1, kv.2))) with hmmm
      set catalog1 :=
        (if (lookupEntry catalog r.code).isSome then catalog
         else catalog ++ [(r.code,
           { base_category := r.category, base_message := m, base_doc := r.documentation,
             methods := mks, overrides := [] })]) with hcat1
      have hlook1 : lookupEntry catalog1 c = some e := by
        rw [hcat1]
        by_cases hmem : (lookupEntry catalog r.code).isSome
        · simpa [hmem] using hc
        · rw [if_neg hmem, lookupEntry_append]
          simp [hc]
      have hlook2 :
          ∃ e2, lookupEntry (updateEntry catalog1 r.code
              (applyRecord r.category r.documentation mks mmm)) c = some e2 ∧
            e2.base_category = e.base_category ∧ e2.base_message = e.base_message ∧
            e2.base_doc = e.base_doc := by
        rw [lookupEntry_updateEntry]
        by_cases hrc : r.code = c
        · refine ⟨applyRecord r.category r.documentation mks mmm e, by simp [hrc, hlook1], ?_⟩
          obtain ⟨h1, h2, h3⟩ := applyRecord_base r.category r.documentation mks mmm e
          exact ⟨h1, h2, h3⟩
        · exact ⟨e, by simp [hrc, hlook1], rfl, rfl, rfl⟩
      obtain ⟨e2, he2, hb1, hb2, hb3⟩ := hlook2
      obtain ⟨e', he', hp1, hp2, hp3⟩ :=
        consolidate_base_preserved rest _ final c e2 hok he2
      exact ⟨e', he', hp1.trans hb1, hp2.trans hb2, hp3.trans hb3⟩

/-- For a code not yet in the catalog, the entry the loop eventually holds
for it takes its base fields from the first record bearing that code. -/
theorem consolidate_base_first :
    ∀ (records : List ErrorRecord) (catalog final : List (Int × CatalogEntry))
      (c : Int) (e : CatalogEntry),
      consolidate records catalog = .ok final →
      lookupEntry catalog c = none →
      lookupEntry final c = some e →
      ∃ r msg, records.find? (fun x => x.code = c) = some r ∧ lookupMsg c = some msg ∧
        e.base_category = r.category ∧ e.base_message = msg ∧ e.base_doc = r.documentation
  | [], catalog, final, c, e, hok, hnone, hfinal => by
    simp only [consolidate] at hok
    cases hok
    rw [hnone] at hfinal
    cases hfinal
  | r :: rest, catalog, final, c, e, hok, hnone, hfinal => by
    cases hr : lookupMsg r.code with
    | none => simp [consolidate, consolidateStep, hr] at hok
    | some m =>
      simp only [consolidate, consolidateStep, hr] at hok
      set mks := dedupFirst (r.methods.map strToUpper) with hmks
      set mmm := ((((METHOD_MESSAGE_OVERRIDES.find? (fun p => p.1 = r.code)).map (fun p => p.2)).getD []).map
        (fun kv => (strToUpper kv.1, kv.2))) with hmmm
      set fresh : CatalogEntry :=
        { base_category := r.category, base_message := m, base_doc := r.documentation,
          methods := mks, overrides := [] } with hfresh
      set catalog1 :=
        (if (lookupEntry catalog r.code).isSome then catalog
         else catalog ++ [(r.code, fresh)]) with hcat1
      by_cases hrc : r.code = c
      · -- the head record creates the entry for `c`; its base fields persist
        have hmem : ¬ (lookupEntry catalog r.code).isSome := by
          rw [hrc, hnone]; simp
        have hlook1 : lookupEntry catalog1 c = some fresh := by
          rw [hcat1, if_neg hmem, lookupEntry_append, hrc, hnone]
          simp [lookupEntry, List.find?_cons]
        have hlook2 : lookupEntry (updateEntry catalog1 r.code
            (applyRecord r.category r.documentation mks mmm)) c =
            some (applyRecord r.category r.documentation mks mmm fresh) := by
          rw [lookupEntry_updateEntry, if_pos hrc, hlook1]
          rfl
        obtain ⟨e', he', hb1, hb2, hb3⟩ :=
          consolidate_base_preserved rest _ final c _ hok hlook2
        have hee : e = e' := by
          rw [hfinal] at he'
          exact Option.some.inj he'
        obtain ⟨a1, a2, a3⟩ := applyRecord_base r.category r.documentation mks mmm fresh
        refine ⟨r, m, ?_, hrc ▸ hr, ?_, ?_, ?_⟩
        · simp [List.find?_cons, hrc]
        · rw [hee, hb1, a1]
        · rw [hee, hb2, a2]
        · rw [hee, hb3, a3]
      · -- the head record touches a different code; recurse
        have hlook1 : lookupEntry catalog1 c = none := by
          rw [hcat1]
          by_cases hmem : (lookupEntry catalog r.code).isSome
          · simpa [hmem] using hnone
          · rw [if_neg hmem, lookupEntry_append, hnone]
            simp [lookupEntry, List.find?_cons, hrc]
        have hlook2 : lookupEntry (updateEntry catalog1 r.code
            (applyRecord r.category r.documentation mks mmm)) c = none := by
          rw [lookupEntry_updateEntry, if_neg hrc, hlook1]
        obtain ⟨r', msg, hfind, hmsg, hb1, hb2, hb3⟩ :=
          consolidate_base_first rest _ final c e hok hlook2 hfinal
        refine ⟨r', msg, ?_, hmsg, hb1, hb2, hb3⟩
        simp [List.find?_cons, hrc, hfind]

/-! ## Claim C9: base fields come from the first record with the code -/

/-- Claim C9: in the consolidated catalog, every entry's base category and
base documentation are those of the first raw record (in input order)
bearing the entry's code, and the base message is the `CODE_MESSAGES` text
for that code; records processed later never change the base fields (they
only extend the method set and overrides map). -/
theorem consolidated_base_from_first_record (records : List ErrorRecord)
    (final : List (Int × CatalogEntry)) (c : Int) (e : CatalogEntry)
    (hok : consolidate records [] = .ok final)
    (hc : lookupEntry final c = some e) :
    ∃ r msg, records.find? (fun x => x.code = c) = some r ∧ lookupMsg c = some msg ∧
      e.base_category = r.category ∧ e.base_message = msg ∧ e.base_doc = r.documentation :=
  consolidate_base_first records [] final c e hok rfl hc


/-- Claim C9 — witness: for the two-record fixture, the `-301` entry's base
fields are those of the first record. -/
theorem consolidated_base_from_first_record_witness :
    ∃ r msg, c9records.find? (fun x => x.code = (-301 : Int)) = some r ∧
      lookupMsg (-301) = some msg ∧
      c9entry.base_category = r.category ∧ c9entry.base_message = msg ∧
      c9entry.base_doc = r.documentation :=
  consolidated_base_from_first_record c9records c9final (-301) c9entry (by rfl) (by rfl)

/-! ## Claim C3: which overrides reach the emitted catalog -/

/-- `insertLe` permutes the insertion. -/
theorem perm_insertLe {α : Type} (le : α → α → Bool) (x : α) (l : List α) :
    (insertLe le x l).Perm (x :: l) := by
  induction l with
  | nil => exact List.Perm.refl _
  | cons y ys ih =>
    unfold insertLe
    split
    · exact List.Perm.refl _
    · exact (List.Perm.cons y ih).trans (List.Perm.swap x y ys)

/-- `sortByLe` permutes its input. -/
theorem perm_sortByLe {α : Type} (le : α → α → Bool) (l : List α) :
    (sortByLe le l).Perm l := by
  induction l with
  | nil => exact List.Perm.refl _
  | cons x xs ih => exact (perm_insertLe le x (sortByLe le xs)).trans (List.Perm.cons x ih)

/-- Claim C3 (amended): a method appears in an emitted entry's overrides map
exactly when its recorded override carries a category or message field
(`overrides_filtered` keeps only those); the emitted record then carries the
truthy fields, the deviating documentation included.  A method whose only
deviation is documentation is recorded in the in-memory overrides map but
dropped from the emitted catalog. -/
theorem emitted_overrides_iff (c : Int) (e : CatalogEntry) (m : String) (x : EmittedOverride) :
    (m, x) ∈ (emitEntry c e).overrides ↔
      ∃ d : OverrideData, (m, d) ∈ e.overrides ∧
        (d.category.isSome = true ∨ d.message.isSome = true) ∧
        x = { category := pyOptStr d.category, message := pyOptStr d.message,
              documentation := pyOptStr d.doc } := by
  unfold emitEntry sortOverridePairs
  simp only [List.mem_map]
  constructor
  · rintro ⟨⟨pm, pd⟩, hp, heq⟩
    have hp' := (perm_sortByLe (fun (a b : String × OverrideData) => strLeB a.1 b.1) _).mem_iff.mp hp
    rw [List.mem_filter] at hp'
    obtain ⟨hmem, hcond⟩ := hp'
    obtain ⟨h1, h2⟩ := Prod.mk.injEq .. ▸ heq
    refine ⟨pd, h1 ▸ hmem, ?_, h2.symm⟩
    simpa [Bool.or_eq_true] using hcond
  · rintro ⟨d, hmem, hcond, hx⟩
    refine ⟨(m, d), ?_, ?_⟩
    · refine (perm_sortByLe (fun (a b : String × OverrideData) => strLeB a.1 b.1) _).mem_iff.mpr ?_
      rw [List.mem_filter]
      exact ⟨hmem, by simpa [Bool.or_eq_true] using hcond⟩
    · rw [hx]

/-- Claim C3 — witness: the amended theorem at a concrete entry.  An
override with a category is emitted (carrying its documentation too). -/
theorem emitted_overrides_iff_witness :
    ((("M", { category := some "input", message := none, documentation := some "docx" }) :
        String × EmittedOverride)) ∈
      (emitEntry 0
        { base_category := "", base_message := "", base_doc := "", methods := [],
          overrides := [("M", { category := some "input", message := none, doc := some "docx" })] }).overrides :=
  (emitted_overrides_iff 0 _ "M" _).mpr
    ⟨{ category := some "input", message := none, doc := some "docx" },
     by decide, Or.inl rfl, rfl⟩


/-- Claim C3 — counterexample.  In the fixture, `JVSTATUS`'s per-row data
deviates from the base in documentation (`"docB"` vs base `"docA"`), and the
in-memory overrides map records that deviation; yet the emitted entry for
`-301` contains no `JVSTATUS` override at all — `overrides_filtered` drops
overrides whose only field is documentation. -/
theorem emitted_overrides_drop_doc_counterexample :
    consolidate (parseRecords ["| JVOpen | -301 | docA | |", "| JVStatus | -301 | docB | |"]) [] =
      .ok c3catalog ∧
    (∃ e, lookupEntry c3catalog (-301) = some e ∧
      e.base_doc = "docA" ∧
      lookupStr e.overrides "JVSTATUS" =
        some { category := none, message := none, doc := some "docB" }) ∧
    (emit c3catalog).map (fun ee => (ee.code, lookupStr ee.overrides "JVSTATUS")) =
      [((-301 : Int), (none : Option EmittedOverride))] := by
  refine ⟨rfl, ⟨_, rfl, ?_, ?_⟩, ?_⟩ <;> decide

/-! ## Occurrence-index lemmas (for Claim C7) -/


theorem occFrom_cons (n : Nat) (x : String) (xs : List String) (t : String) :
    occFrom n (x :: xs) t = (if x = t then [n] else []) ++ occFrom (n + 1) xs t := by
  unfold occFrom
  rw [List.enumFrom_cons, List.filter_cons]
  split <;> simp_all

theorem occFrom_shift (l : List String) (t : String) :
    ∀ n, occFrom n l t = (occFrom 0 l t).map (fun j => j + n) := by
  induction l with
  | nil => intro n; rfl
  | cons x xs ih =>
    intro n
    rw [occFrom_cons, occFrom_cons, ih (n + 1), ih 1, List.map_append, List.map_map]
    refine congrArg₂ _ ?_ ?_
    · by_cases hx : x = t
      · rw [if_pos hx, if_pos hx]; simp
      · rw [if_neg hx, if_neg hx]; rfl
    · exact List.map_congr_left (fun a _ => by simp only [Function.comp_apply]; omega)

theorem occIndices_eq_occFrom (l : List String) (t : String) :
    occIndices l t = occFrom 0 l t := rfl

theorem occIndices_cons (x : String) (xs : List String) (t : String) :
    occIndices (x :: xs) t = (if x = t then [0] else []) ++ (occIndices xs t).map (fun j => j + 1) := by
  rw [occIndices_eq_occFrom, occFrom_cons, occFrom_shift xs t 1, occIndices_eq_occFrom]

/-- The comprehension `[idx for idx, v in enumerate(l) if v == t]` has as
many elements as `t` has occurrences in `l`. -/
theorem occIndices_length (l : List String) (t : String) :
    (occIndices l t).length = l.count t := by
  induction l with
  | nil => rfl
  | cons x xs ih =>
    rw [occIndices_cons]
    by_cases hx : x = t
    · simp [hx, List.count_cons, ih]
    · simp [hx, List.count_cons, ih, Ne.symm hx]

/-- Structure of the head of the occurrence-index list: it points at the
first occurrence, and the tail enumerates the occurrences of the remainder
(shifted past it). -/
theorem occIndices_head :
    ∀ (l : List String) (t : String) (j : Nat) (rest : List Nat),
      occIndices l t = j :: rest →
      ∃ pre suf, l = pre ++ t :: suf ∧ t ∉ pre ∧ pre.length = j ∧
        rest = (occIndices suf t).map (fun a => a + (j + 1))
  | [], t, j, rest, h => by simp [occIndices] at h
  | x :: xs, t, j, rest, h => by
    rw [occIndices_cons] at h
    by_cases hx : x = t
    · rw [if_pos hx] at h
      simp only [List.cons_append, List.nil_append] at h
      obtain ⟨hj, hrest⟩ := List.cons.inj h
      subst hj
      refine ⟨[], xs, by simp [hx], by simp, rfl, ?_⟩
      rw [← hrest]
    · rw [if_neg hx, List.nil_append] at h
      cases hocc : occIndices xs t with
      | nil => rw [hocc] at h; cases h
      | cons j' rest' =>
        rw [hocc, List.map_cons] at h
        obtain ⟨hj, hrest⟩ := List.cons.inj h
        obtain ⟨pre', suf, hxs, hnotin, hlen, hrest'⟩ := occIndices_head xs t j' rest' hocc
        refine ⟨x :: pre', suf, by simp [hxs], ?_, ?_, ?_⟩
        · intro hmem
          rcases List.mem_cons.mp hmem with h1 | h2
          · exact hx h1.symm
          · exact hnotin h2
        · simp [hlen, ← hj]
        · rw [← hrest, hrest', List.map_map]
          exact List.map_congr_left (fun a _ => by simp only [Function.comp_apply]; omega)

/-! ## Claim C7: the detail anchor is the second `"JVInit"` occurrence -/

/-- Claim C7: the segmenter fails fatally exactly when the merged line list
contains fewer than two occurrences of `"JVInit"` (the first declared method
name), and any successful parse segments exactly the suffix beginning at the
second occurrence — the merged list splits as
`pre ++ "JVInit" :: mid ++ "JVInit" :: suf` with no occurrence inside `pre`
or `mid`, and the produced `MethodDefinition`s are those of
`"JVInit" :: suf`; no line before that anchor contributes. -/
theorem parse_methods_anchor_second (lines : List String) :
    ((∃ err, parseMethodDefs lines = .error err) ↔
      (mergeFragments lines).count "JVInit" < 2) ∧
    (∀ ms, parseMethodDefs lines = .ok ms →
      ∃ pre mid suf,
        mergeFragments lines = pre ++ "JVInit" :: (mid ++ "JVInit" :: suf) ∧
        "JVInit" ∉ pre ∧ "JVInit" ∉ mid ∧
        ms = segMethods ("JVInit" :: suf)) := by
  constructor
  · constructor
    · rintro ⟨err, herr⟩
      unfold parseMethodDefs at herr
      by_cases hlen : (occIndices (mergeFragments lines) "JVInit").length < 2
      · rwa [occIndices_length] at hlen
      · rw [if_neg hlen] at herr; cases herr
    · intro hcount
      have hlen : (occIndices (mergeFragments lines) "JVInit").length < 2 := by
        rwa [occIndices_length]
      exact ⟨"Unable to locate method detail section.", by unfold parseMethodDefs; rw [if_pos hlen]⟩
  · intro ms hok
    unfold parseMethodDefs at hok
    by_cases hlen : (occIndices (mergeFragments lines) "JVInit").length < 2
    · rw [if_pos hlen] at hok; cases hok
    · rw [if_neg hlen] at hok
      have hms := (Except.ok.inj hok).symm
      cases hocc : occIndices (mergeFragments lines) "JVInit" with
      | nil => rw [hocc] at hlen; simp at hlen
      | cons i rest1 =>
        cases rest1 with
        | nil => rw [hocc] at hlen; simp at hlen
        | cons k rest2 =>
          obtain ⟨pre, suf1, hl1, hpre, hlenpre, hrest⟩ :=
            occIndices_head _ _ _ _ hocc
          cases hocc2 : occIndices suf1 "JVInit" with
          | nil => rw [hocc2] at hrest; cases hrest
          | cons k' rest2' =>
            rw [hocc2, List.map_cons] at hrest
            obtain ⟨hk, _⟩ := List.cons.inj hrest
            obtain ⟨mid, suf, hsuf1, hmid, hlenmid, _⟩ :=
              occIndices_head _ _ _ _ hocc2
            refine ⟨pre, mid, suf, by rw [hl1, hsuf1], hpre, hmid, ?_⟩
            have hdrop : (mergeFragments lines).drop k = "JVInit" :: suf := by
              rw [hl1, hsuf1]
              have hassoc :
                  pre ++ "JVInit" :: (mid ++ "JVInit" :: suf) =
                    (pre ++ "JVInit" :: mid) ++ ("JVInit" :: suf) := by simp
              have hklen : k = (pre ++ "JVInit" :: mid).length := by
                simp only [List.length_append, List.length_cons]
                omega
              rw [hassoc, hklen, List.drop_left]
            rw [hms, hocc]
            simp only [List.getD, List.get?, Option.getD_some]
            rw [hdrop]

/-- Claim C7 — witness: on `["JVInit", "JVInit"]` the parse succeeds and the
anchor decomposition holds with both occurrences located. -/
theorem parse_methods_anchor_second_witness :
    ∃ pre mid suf,
      mergeFragments ["JVInit", "JVInit"] = pre ++ "JVInit" :: (mid ++ "JVInit" :: suf) ∧
      "JVInit" ∉ pre ∧ "JVInit" ∉ mid ∧
      segMethods ["JVInit"] = segMethods ("JVInit" :: suf) :=
  (parse_methods_anchor_second ["JVInit", "JVInit"]).2 (segMethods ["JVInit"]) rfl

/-! ## Claim C8: names of produced methods, and the size of the name table -/

/-- Every in-bounds read of `METHOD_NAMES` is a member of it. -/
theorem method_names_getD_mem :
    ∀ i, i < METHOD_NAMES.length → METHOD_NAMES.getD i "" ∈ METHOD_NAMES := by
  decide


theorem closeSection_name (cur : Option MethodDef) (key : String) (block : List String)
    (c : MethodDef) (h : closeSection cur key block = some c) :
    ∃ c0, cur = some c0 ∧ c.name = c0.name := by
  cases cur with
  | none => cases h
  | some c0 => exact ⟨c0, rfl, by cases h; rfl⟩

/-- `namesOk` only looks at the `acc` and `cur` fields. -/
theorem namesOk_of_eq (st2 st : SegState) (h : namesOk st)
    (ha : st2.acc = st.acc) (hc : st2.cur = st.cur) : namesOk st2 := by
  obtain ⟨h1, h2⟩ := h
  exact ⟨fun m hm => h1 m (ha ▸ hm), fun c hcc => h2 c (hc ▸ hcc)⟩

theorem handleNormal_namesOk (st : SegState) (line : String) (h : namesOk st) :
    namesOk (handleNormal st line) := by
  obtain ⟨hacc, hcur⟩ := h
  unfold handleNormal
  by_cases hidx : st.midx < METHOD_NAMES.length
  · rw [if_pos hidx]
    by_cases hline : line = METHOD_NAMES.getD st.midx ""
    · rw [if_pos hline]
      refine ⟨?_, ?_⟩
      · intro m hm
        rcases List.mem_append.mp hm with h1 | h2
        · exact hacc m h1
        · cases hc : st.cur with
          | none => rw [hc] at h2; cases h2
          | some c0 =>
            rw [hc] at h2
            simp only [Option.toList_some, List.mem_singleton] at h2
            exact h2 ▸ hcur c0 hc
      · intro c hc
        cases hc
        exact hline ▸ method_names_getD_mem st.midx hidx
    · rw [if_neg hline]
      cases hc : st.cur with
      | none => exact ⟨hacc, hcur⟩
      | some c0 =>
        dsimp only
        split
        · exact namesOk_of_eq _ st ⟨hacc, hcur⟩ rfl hc.symm
        · exact namesOk_of_eq _ st ⟨hacc, hcur⟩ rfl rfl
  · rw [if_neg hidx]
    exact ⟨hacc, hcur⟩

theorem segStep_namesOk (st : SegState) (line : String) (h : namesOk st) :
    namesOk (segStep st line) := by
  obtain ⟨hacc, hcur⟩ := h
  unfold segStep
  cases hmode : st.mode with
  | normal => exact handleNormal_namesOk st line ⟨hacc, hcur⟩
  | afterName =>
    dsimp only
    by_cases h1 : line = ""
    · rw [if_pos h1]
      exact ⟨hacc, hcur⟩
    · rw [if_neg h1]
      by_cases h2 : ¬ METHOD_NAMES.contains line ∧ ¬ strStartsWith line "【"
      · rw [if_pos h2]
        refine ⟨hacc, ?_⟩
        intro c hc2
        dsimp only at hc2
        cases hc0 : st.cur with
        | none => rw [hc0] at hc2; exact absurd hc2 (by simp)
        | some c0 =>
          rw [hc0] at hc2
          simp only [Option.map_some'] at hc2
          rw [← Option.some.inj hc2]
          exact hcur c0 hc0
      · rw [if_neg h2]
        exact handleNormal_namesOk _ line (namesOk_of_eq _ st ⟨hacc, hcur⟩ rfl rfl)
  | inBlock key block =>
    have hmid : namesOk { st with cur := closeSection st.cur key block, mode := SegMode.normal } := by
      refine ⟨hacc, ?_⟩
      intro c hc2
      dsimp only at hc2
      obtain ⟨c0, hc0, hname⟩ := closeSection_name st.cur key block c hc2
      rw [hname]
      exact hcur c0 hc0
    dsimp only
    by_cases h1 : line = ""
    · rw [if_pos h1]
      exact namesOk_of_eq _ st ⟨hacc, hcur⟩ rfl rfl
    · rw [if_neg h1]
      by_cases h2 : strStartsWith line "【" = true ∧ strEndsWith line "】" = true
      · rw [if_pos h2]
        exact handleNormal_namesOk _ line hmid
      · rw [if_neg h2]
        by_cases h3 : METHOD_NAMES.get? st.midx = some line
        · rw [if_pos h3]
          exact handleNormal_namesOk _ line hmid
        · rw [if_neg h3]
          exact namesOk_of_eq _ st ⟨hacc, hcur⟩ rfl rfl

theorem segFold_namesOk (lines : List String) :
    ∀ (st : SegState), namesOk st → namesOk (lines.foldl segStep st) := by
  induction lines with
  | nil => intro st h; exact h
  | cons l rest ih =>
    intro st h
    exact ih (segStep st l) (segStep_namesOk st l h)

/-- `segFinish` emits only names that the invariant vouches for. -/
theorem segFinish_names (st : SegState) (h : namesOk st) :
    ∀ m ∈ segFinish st, m.name ∈ METHOD_NAMES := by
  obtain ⟨hacc, hcur⟩ := h
  intro m hm
  unfold segFinish at hm
  rcases List.mem_append.mp hm with h1 | h2
  · exact hacc m h1
  · rcases ho : (match st.mode with
      | SegMode.inBlock key block => closeSection st.cur key block
      | _ => st.cur) with _ | c
    · rw [ho] at h2
      cases h2
    · rw [ho] at h2
      simp only [Option.toList_some, List.mem_singleton] at h2
      subst h2
      cases hmode : st.mode with
      | inBlock key block =>
        rw [hmode] at ho
        obtain ⟨c0, hc0, hname⟩ := closeSection_name st.cur key block m ho
        rw [hname]
        exact hcur c0 hc0
      | normal =>
        rw [hmode] at ho
        exact hcur m ho
      | afterName =>
        rw [hmode] at ho
        exact hcur m ho

/-- Every `MethodDefinition` produced by the segmentation loop bears one of
the declared method names. -/
theorem segMethods_names (detail : List String) :
    ∀ m ∈ segMethods detail, m.name ∈ METHOD_NAMES := by
  unfold segMethods
  exact segFinish_names _
    (segFold_namesOk detail { midx := 0, cur := none, acc := [], mode := SegMode.normal }
      ⟨fun x hx => absurd hx (List.not_mem_nil x), fun c hc => Option.noConfusion hc⟩)

/-- Claim C8 — counterexample.  The claim asserts the fixed method-name set
has exactly 25 members; `METHOD_NAMES` (whose entries are distinct) has 26. -/
theorem method_names_not_25 : ¬ METHOD_NAMES.length = 25 := by
  decide

/-- Claim C8 (amended): every `MethodDefinition` the segmenter produces has
a name drawn from the fixed `METHOD_NAMES` table, whose 26 entries are
pairwise distinct — the fixed set has exactly 26 known API method names,
not 25. -/
theorem segmenter_names_in_table :
    (∀ lines ms, parseMethodDefs lines = .ok ms → ∀ m ∈ ms, m.name ∈ METHOD_NAMES) ∧
    METHOD_NAMES.Nodup ∧ METHOD_NAMES.length = 26 := by
  refine ⟨?_, by decide, by decide⟩
  intro lines ms hok
  unfold parseMethodDefs at hok
  by_cases hlen : (occIndices (mergeFragments lines) "JVInit").length < 2
  · rw [if_pos hlen] at hok; cases hok
  · rw [if_neg hlen] at hok
    rw [← Except.ok.inj hok]
    exact segMethods_names _

/-- Claim C8 — witness: the membership part applied at a successful parse. -/
theorem segmenter_names_in_table_witness :
    ({ name := "JVInit", summary := "", sections := [] } : MethodDef).name ∈ METHOD_NAMES :=
  segmenter_names_in_table.1 ["JVInit", "JVInit"]
    [{ name := "JVInit", summary := "", sections := [] }] rfl
    { name := "JVInit", summary := "", sections := [] } (List.mem_singleton.mpr rfl)

/-! ## Claim C2: order of emitted method groups -/


/-- Closed form of the pair-grouping fold: it appends one group per present
pair, in pair-list order, and records the members of the present pairs. -/
theorem pairs_fold (methods : List MethodDef) :
    ∀ (prs : List (String × String)) (gs : List MethodGroup) (gn : List String),
      prs.foldl (pairStep methods) (gs, gn) =
        (gs ++ (prs.filter (fun pr =>
            (lookupMethod methods pr.1).isSome && (lookupMethod methods pr.2).isSome)).map
          (pairGroupOf methods),
         gn ++ (prs.filter (fun pr =>
            (lookupMethod methods pr.1).isSome && (lookupMethod methods pr.2).isSome)).flatMap
          (fun pr => [pr.1, pr.2])) := by
  intro prs
  induction prs with
  | nil => intro gs gn; simp
  | cons pr rest ih =>
    intro gs gn
    rw [List.foldl_cons]
    cases h1 : lookupMethod methods pr.1 with
    | none =>
      have hstep : pairStep methods (gs, gn) pr = (gs, gn) := by
        unfold pairStep
        rw [h1]
      rw [hstep, ih]
      simp [List.filter_cons, h1]
    | some mp =>
      cases h2 : lookupMethod methods pr.2 with
      | none =>
        have hstep : pairStep methods (gs, gn) pr = (gs, gn) := by
          unfold pairStep
          rw [h1, h2]
        rw [hstep, ih]
        simp [List.filter_cons, h1, h2]
      | some msec =>
        have hstep : pairStep methods (gs, gn) pr =
            (gs ++ [mkPairGroup pr.1 pr.2 mp msec], gn ++ [pr.1, pr.2]) := by
          unfold pairStep
          rw [h1, h2]
        rw [hstep, ih]
        simp [List.filter_cons, h1, h2, pairGroupOf, List.append_assoc]

/-- Closed form of the singleton loop: it appends one singleton group per
ungrouped present name, in `METHOD_NAMES` order. -/
theorem singles_fold (methods : List MethodDef) (gn : List String) :
    ∀ (names : List String) (gs : List MethodGroup),
      names.foldl (singleStep methods gn) gs =
        gs ++ names.filterMap (fun n =>
          if gn.contains n then none
          else (lookupMethod methods n).map (fun info => mkSingleGroup n info)) := by
  intro names
  induction names with
  | nil => intro gs; simp
  | cons n rest ih =>
    intro gs
    rw [List.foldl_cons]
    by_cases hg : gn.contains n
    · have hstep : singleStep methods gn gs n = gs := by
        unfold singleStep
        rw [if_pos hg]
      rw [hstep, ih]
      have hmem : n ∈ gn := by simpa using hg
      simp [List.filterMap_cons, hmem]
    · have hmem : ¬ n ∈ gn := by simpa using hg
      cases hl : lookupMethod methods n with
      | none =>
        have hstep : singleStep methods gn gs n = gs := by
          unfold singleStep
          rw [if_neg hg, hl]
        rw [hstep, ih]
        simp [List.filterMap_cons, hmem, hl]
      | some info =>
        have hstep : singleStep methods gn gs n = gs ++ [mkSingleGroup n info] := by
          unfold singleStep
          rw [if_neg hg, hl]
        rw [hstep, ih]
        simp [List.filterMap_cons, hmem, hl, List.append_assoc]

/-- Titles of the singleton groups are the ungrouped present names. -/
theorem singles_titles (methods : List MethodDef) (gn : List String) (names : List String) :
    (names.filterMap (fun n =>
        if gn.contains n then none
        else (lookupMethod methods n).map (fun info => mkSingleGroup n info))).map
      (fun g => g.title) =
      names.filter (fun n => !(gn.contains n) && (lookupMethod methods n).isSome) := by
  induction names with
  | nil => rfl
  | cons n rest ih =>
    simp only [List.filterMap_cons, List.filter_cons]
    by_cases hg : gn.contains n
    · have hmem : n ∈ gn := by simpa using hg
      simpa [hmem] using ih
    · have hmem : ¬ n ∈ gn := by simpa using hg
      cases hl : lookupMethod methods n with
      | none => simpa [hmem, hl] using ih
      | some info => simpa [hmem, hl, mkSingleGroup] using ih

/-- Claim C2 (amended): the grouper emits the merged pairs *first* — one
group per `GROUPING` pair whose two members are both present, in `GROUPING`
order — followed by every ungrouped present method as a singleton group in
declared `METHOD_NAMES` order.  (The claim's placement of each pair at the
position of its primary member does not hold; see the counterexample.) -/
theorem group_methods_order (methods : List MethodDef) :
    (group_methods methods).map (fun g => g.title) =
      (presentPairs methods).map (fun pr => pr.1 ++ " / " ++ pr.2) ++
        METHOD_NAMES.filter (fun n =>
          !((pairedNames methods).contains n) && (lookupMethod methods n).isSome) := by
  unfold group_methods
  rw [pairs_fold methods GROUPING [] []]
  simp only [List.nil_append]
  rw [singles_fold methods _ METHOD_NAMES _]
  rw [List.map_append, singles_titles]
  refine congrArg₂ _ ?_ rfl
  rw [List.map_map]
  rfl


/-- Claim C2 — counterexample.  On a segmenter output containing every
method, the grouper emits the three merged pairs first and only then the
singletons, so the emitted order is not the declared order with pairs at
their primary members' positions: the first emitted group is
`JVMVCheck / JVMVCheckWithType`, where the claim requires `JVInit` first. -/
theorem group_methods_order_counterexample :
    parseMethodDefs c2lines = .ok c2ms ∧
    (group_methods c2ms).map (fun g => g.title) ≠ claimedTitleOrder c2ms ∧
    ((group_methods c2ms).map (fun g => g.title)).take 4 =
      ["JVMVCheck / JVMVCheckWithType", "JVMVPlay / JVMVPlayWithType",
       "JVWatchEvent / JVWatchEventClose", "JVInit"] ∧
    (claimedTitleOrder c2ms).take 1 = ["JVInit"] :=
  ⟨rfl, by decide, by decide, by decide⟩
